import Mathlib

/-!
Verification development for the `init-v1` repository.

The development shallowly embeds the parts of the code that the checked
claims are about:

* `SliceWriter` (src/init/src/slice_writer.rs) — the incremental,
  failure-safe slice initializer.  Memory is modelled as a list of
  `Option α` slots (`none` = uninitialized/raw byte garbage), the writer
  keeps the source's three fields (`len`, `init`, the iterator's
  remaining length).  Element construction outcomes are passed in as
  `Except ε α` values (the element's `Ctor`/`TryCtor` result).
* the slice constructors in src/init/src/slice/ctor.rs and
  src/init/src/slice/try_ctor.rs (length-mismatch guards, the
  `CopyArgs` while-loop, the `IterInit` iterator fill);
* `try_boxed_with` (src/init/src/boxed.rs) together with the
  `ScalarLayoutProvider`/`SliceLayoutProvider` instances for `u8`
  (src/init/src/ext.rs), for the zero-fill shortcut;
* `ThinVec` (src/thin/src/vec.rs), modelled for element types of
  nonzero size (for zero-sized elements the source uses a separate
  `usize::MAX`-capacity representation that these claims do not touch).

Rust panics are modelled with `Except PanicReason`; functions that the
source lets unwind return `PanicOr`.
-/

namespace InitV1

/-- Reasons the modelled code can panic (each constructor corresponds to
one `panic!`/`assert!`/`expect` site in the source). -/
inductive PanicReason where
  /-- failure of `assert!(!self.is_complete())` in `SliceWriter::init`/`try_init` -/
  | assertIncomplete
  /-- panic `incomplete_error()` raised by `SliceWriter::finish`; its message
  string is "Tried to finish a poisoned writer" — the source swapped the two texts -/
  | incompleteWriter
  /-- panic `poisoned_error()` raised by `SliceWriter::finish_unchecked` -/
  | poisonedWriter
  /-- panic `length_error(expected, found)` in src/init/src/slice/ctor.rs -/
  | lengthMismatch (expected found : Nat)
  /-- the `expect` failure "Could not calculate new capacity" in
  `ThinVec::reserve_inner_move` when `new_capacity` overflows `usize` -/
  | reserveOverflow
  /-- the `expect` failure "Could not calculate new layout" in
  `ThinVec::reserve_inner_realloc` when `new_layout` fails (capacity overflow
  or a block layout beyond `isize::MAX`) -/
  | reserveLayoutError
  /-- panic "Could not construct layout" (`TryBoxedError::LayoutError` handled
  by `handle_alloc_and_layout`), reached through `ThinVec::with_capacity` →
  `ThinBox::new` → `init::boxed::boxed` when the block layout exceeds `isize::MAX` -/
  | layoutUnavailable
  /-- panic "Cannot reserve more than usize::MAX elements for Zero Sized Types"
  in `ThinVec::reserve_inner` -/
  | zstReserve
  /-- a `core::hint::unreachable_unchecked()` site was reached (undefined behavior) -/
  | unreachableUB
  deriving DecidableEq, Repr

/-- Result of running code that may panic. -/
abbrev PanicOr (α : Type) := Except PanicReason α

/-- Model of `SliceWriter<'a, T>` (src/init/src/slice_writer.rs).
`mem` is the underlying slice memory (`none` = raw slot), `len`/`initCount`
are the source's `len`/`init` fields and `iterLen` is `self.iter.len()`.
The iterator's cursor offset is recovered as `len - iterLen`. -/
structure SliceWriter (α : Type) where
  len : Nat
  initCount : Nat
  iterLen : Nat
  mem : List (Option α)
  deriving DecidableEq, Repr

namespace SliceWriter

/-- Model of `SliceWriter::new` on an uninitialized region of length `n`. -/
def new (α : Type) (n : Nat) : SliceWriter α :=
  { len := n, initCount := 0, iterLen := n, mem := List.replicate n none }

/-- Model of `SliceWriter::remaining_len` (`self.iter.len()`). -/
def remaining_len (w : SliceWriter α) : Nat := w.iterLen

/-- Model of `SliceWriter::is_complete`. -/
def is_complete (w : SliceWriter α) : Bool := w.remaining_len == 0

/-- Model of `SliceWriter::is_poisoned` (`self.len - self.iter.len() != self.init`). -/
def is_poisoned (w : SliceWriter α) : Bool := w.len - w.iterLen != w.initCount

/-- Model of `SliceWriter::init_unchecked`: the iterator yields the slot at
offset `len - iterLen`, the element constructor writes `v` there, and `init`
is incremented. -/
def init_unchecked (w : SliceWriter α) (v : α) : SliceWriter α :=
  { w with
      mem := w.mem.set (w.len - w.iterLen) (some v)
      iterLen := w.iterLen - 1
      initCount := w.initCount + 1 }

/-- Model of `SliceWriter::try_init_unchecked`: the iterator is advanced
first; if the element constructor fails the error is propagated with `?`
before `self.init += 1`, so the consumed slot stays raw and uncounted. -/
def try_init_unchecked (w : SliceWriter α) (arg : Except ε α) :
    SliceWriter α × Option ε :=
  match arg with
  | .error e => ({ w with iterLen := w.iterLen - 1 }, some e)
  | .ok v =>
    ({ w with
        mem := w.mem.set (w.len - w.iterLen) (some v)
        iterLen := w.iterLen - 1
        initCount := w.initCount + 1 }, none)

/-- Model of the checked `SliceWriter::init` (`assert!(!self.is_complete())`). -/
def init (w : SliceWriter α) (v : α) : PanicOr (SliceWriter α) :=
  if w.is_complete then .error .assertIncomplete
  else .ok (w.init_unchecked v)

/-- Model of the checked `SliceWriter::try_init`. -/
def try_init (w : SliceWriter α) (arg : Except ε α) :
    PanicOr (SliceWriter α × Option ε) :=
  if w.is_complete then .error .assertIncomplete
  else .ok (w.try_init_unchecked arg)

/-- Start offset used by `SliceWriter::get_remaining`:
`remaining.cast::<T>().sub(self.len - self.iter.len())`, where the
`remaining` pointer sits at offset `len - iterLen`. -/
def get_remaining_start (w : SliceWriter α) : Nat :=
  (w.len - w.iterLen) - (w.len - w.iterLen)

/-- Model of `SliceWriter::get_remaining`: the slice of length `init`
starting at `get_remaining_start`. -/
def get_remaining (w : SliceWriter α) : List (Option α) :=
  (w.mem.drop w.get_remaining_start).take w.initCount

/-- Slot indices torn down by `impl Drop for SliceWriter` (it calls
`get_remaining` and drops that `Init<[T]>` slice element by element). -/
def drop_teardown (w : SliceWriter α) : List Nat :=
  (List.range w.initCount).map (w.get_remaining_start + ·)

/-- Model of `SliceWriter::finish_unchecked` (UB if incomplete, panics if
poisoned, otherwise hands back the initialized slice). -/
def finish_unchecked (w : SliceWriter α) : PanicOr (List (Option α)) :=
  if !w.is_complete then .error .unreachableUB
  else if w.is_poisoned then .error .poisonedWriter
  else .ok w.get_remaining

/-- Model of `SliceWriter::try_finish`. -/
def try_finish (w : SliceWriter α) : Option (PanicOr (List (Option α))) :=
  if w.is_complete then some w.finish_unchecked else none

/-- Model of `SliceWriter::finish` (`try_finish().unwrap_or_else(|| incomplete_error())`). -/
def finish (w : SliceWriter α) : PanicOr (List (Option α)) :=
  match w.try_finish with
  | some r => r
  | none => .error .incompleteWriter

end SliceWriter

/-- Outcome of one element write attempt: the element constructor either
produces a value or fails (recoverable error or panic — both leave the
writer in the same state, only control flow afterwards differs). -/
inductive WriteStep (α : Type) where
  | ok (v : α)
  | fail
  deriving DecidableEq, Repr

namespace WriteStep

/-- View of a `WriteStep` as the element constructor's `Result`. -/
def toExcept : WriteStep α → Except Unit α
  | .ok v => .ok v
  | .fail => .error ()

end WriteStep

namespace SliceWriter

/-- State change of one (unchecked) write attempt. -/
def apply_step (w : SliceWriter α) (s : WriteStep α) : SliceWriter α :=
  (w.try_init_unchecked s.toExcept).1

/-- Running a sequence of write attempts through the checked API: each
`init`/`try_init` call asserts `!is_complete` and panics (stopping the
sequence, with no state change) otherwise. -/
def run_writes (w : SliceWriter α) : List (WriteStep α) → SliceWriter α
  | [] => w
  | s :: rest => if w.is_complete then w else (w.apply_step s).run_writes rest

end SliceWriter

/-- Number of successful writes in a step sequence. -/
def countOk (steps : List (WriteStep α)) : Nat :=
  steps.countP fun s => match s with | .ok _ => true | .fail => false

/-- Contents of one slot after a write attempt. -/
def stepSlot : WriteStep α → Option α
  | .ok v => some v
  | .fail => none

/-- Closed form of the slice memory after running `steps` from a fresh
writer over `n` slots. -/
def stepsMem (n : Nat) (steps : List (WriteStep α)) : List (Option α) :=
  steps.map stepSlot ++ List.replicate (n - steps.length) none

/-- Model of `SliceWriter::init` folded over a list of values through the
checked API (each call is `self.init(args)`). -/
def SliceWriter.write_all (w : SliceWriter α) (vs : List α) : PanicOr (SliceWriter α) :=
  vs.foldlM SliceWriter.init w

/-- Structural invariant of a reachable writer: the iterator never grows
past the slice and the count of initialized elements never exceeds the
number of consumed slots. -/
def SliceWriter.Inv (w : SliceWriter α) : Prop :=
  w.iterLen ≤ w.len ∧ w.initCount ≤ w.len - w.iterLen

/-- Model of the `try_for_each` loop of `<[T] as TryCtor<IterInit<I>>>`
(src/init/src/slice/try_ctor.rs): feed each yielded item's construction
outcome to `try_init_unchecked`, stopping at the first error. -/
def SliceWriter.try_for_each (w : SliceWriter α) :
    List (Except ε α) → SliceWriter α × Option ε
  | [] => (w, none)
  | x :: xs =>
    match w.try_init_unchecked x with
    | (w1, none) => w1.try_for_each xs
    | (w1, some e) => (w1, some e)

/-- Model of `IterInitError` (src/init/src/slice/try_ctor.rs). -/
inductive IterInitError (ε : Type) where
  | notEnoughItems
  | initError (e : ε)
  deriving DecidableEq, Repr

namespace Slice

/-- Model of `<[T] as MoveCtor>::move_ctor` (src/init/src/slice/ctor.rs):
guard on length mismatch, then either the trivial bulk byte copy or the
`SliceWriter` element loop finished with `finish_unchecked`. -/
def move_ctor (α : Type) (uninitLen : Nat) (p : List α) (isMoveTrivial : Bool) :
    PanicOr (List (Option α)) :=
  if uninitLen != p.length then .error (.lengthMismatch uninitLen p.length)
  else if isMoveTrivial then .ok (p.map some)
  else
    (p.foldl SliceWriter.init_unchecked (SliceWriter.new α uninitLen)).finish_unchecked

/-- Model of `<[T] as TakeCtor>::take_ctor` (src/init/src/slice/ctor.rs). -/
def take_ctor (α : Type) (uninitLen : Nat) (p : List α) (isTakeTrivial : Bool) :
    PanicOr (List (Option α)) :=
  if uninitLen != p.length then .error (.lengthMismatch uninitLen p.length)
  else if isTakeTrivial then .ok (p.map some)
  else
    (p.foldl SliceWriter.init_unchecked (SliceWriter.new α uninitLen)).finish_unchecked

/-- Model of `<[T] as CloneCtor>::clone_ctor` (src/init/src/slice/ctor.rs). -/
def clone_ctor (α : Type) (uninitLen : Nat) (p : List α) (isCloneTrivial : Bool) :
    PanicOr (List (Option α)) :=
  if uninitLen != p.length then .error (.lengthMismatch uninitLen p.length)
  else if isCloneTrivial then .ok (p.map some)
  else
    (p.foldl SliceWriter.init_unchecked (SliceWriter.new α uninitLen)).finish_unchecked

/-- Model of `<[T] as TryCtor<IterInit<I>>>::try_init` up to the point the
error path drops the writer: the fresh writer is run over
`items.take(writer.remaining_len())`. -/
def iter_init_run (α ε : Type) (n : Nat) (items : List (Except ε α)) :
    SliceWriter α × Option ε :=
  (SliceWriter.new α n).try_for_each
    (items.take (SliceWriter.new α n).remaining_len)

/-- Model of `<[T] as TryCtor<IterInit<I>>>::try_init`
(src/init/src/slice/try_ctor.rs lines 325-340): the loop error is wrapped
in `InitError`, then `writer.try_finish().ok_or(NotEnoughItems)`. -/
def iter_init (α ε : Type) (n : Nat) (items : List (Except ε α)) :
    PanicOr (Except (IterInitError ε) (List (Option α))) :=
  match iter_init_run α ε n items with
  | (_, some e) => .ok (.error (.initError e))
  | (w, none) =>
    match w.try_finish with
    | some r => r.map Except.ok
    | none => .ok (.error .notEnoughItems)

end Slice

/-- Largest array byte size accepted by `Layout::array` (`isize::MAX`). -/
def ISIZE_MAX : Nat := 2 ^ 63 - 1

/-- Model of `ScalarLayoutProvider::is_zeroed` for `u8` with a `u8`
argument (src/init/src/ext.rs, `primitive!` macro): true iff the argument
equals the type's zero value. -/
def ScalarLayoutProvider.is_zeroed_u8 (arg : Nat) : Bool := arg == 0

/-- Model of `<u8 as Ctor<u8>>::init`: `uninit.write(arg)`. -/
def u8_ctor (arg : Nat) : Nat := arg

/-- Model of `SliceLayoutProvider::layout_of` for `[u8]` with
`CopyArgsLen(len, _)`: `Layout::array::<u8>(len)`, failing above
`isize::MAX` bytes. -/
def SliceLayoutProvider.layout_of_u8 (len : Nat) : Option Nat :=
  if len ≤ ISIZE_MAX then some len else none

/-- Model of `SliceLayoutProvider::is_zeroed` for `[u8]` with
`CopyArgsLen(_, args)`: delegates to the element's provider. -/
def SliceLayoutProvider.is_zeroed_copy_u8 (arg : Nat) : Bool :=
  ScalarLayoutProvider.is_zeroed_u8 arg

namespace Slice

/-- Model of the `CopyArgs` while-loop of `<[T] as TryCtor<CopyArgs<A>>>`
(src/init/src/slice/try_ctor.rs):
`while !writer.is_complete() { writer.try_init_unchecked(args)? }` with an
infallible element constructor; the fuel argument is the initial remaining
length (the loop consumes exactly one slot per iteration). -/
def copy_args_loop (ctor : Nat → α) (arg : Nat) : Nat → SliceWriter α → SliceWriter α
  | 0, w => w
  | fuel + 1, w =>
    if w.is_complete then w
    else copy_args_loop ctor arg fuel (w.init_unchecked (ctor arg))

/-- Model of the general element-wise construction path for `[u8]` with
`CopyArgs(arg)`: run the copy loop over a fresh writer, then
`finish_unchecked` as the source does. -/
def try_init_copy_u8 (n arg : Nat) : PanicOr (List (Option Nat)) :=
  (copy_args_loop u8_ctor arg n (SliceWriter.new Nat n)).finish_unchecked

end Slice

/-- Model of `TryBoxedError` (src/init/src/boxed.rs), with an extra
variant recording a panic unwinding out of the constructor. -/
inductive TryBoxedError where
  | layoutError
  | allocError
  | initError
  | ctorPanic (p : PanicReason)
  deriving DecidableEq, Repr

/-- Model of `try_boxed_with::<[u8], CopyArgsLen<u8>, SliceLayoutProvider>`
(src/init/src/boxed.rs lines 86-128): compute the layout and `is_zeroed`;
a zero-size layout skips allocation, a zeroed request allocates with
`alloc_zeroed` (every byte defined zero) and skips the constructor
entirely, otherwise plain `alloc` yields undefined bytes and the
element-wise constructor runs.  The result pairs the final bytes with a
flag recording whether the constructor was invoked. -/
def try_boxed_u8_copy (len arg : Nat) :
    Except TryBoxedError (List (Option Nat) × Bool) :=
  match SliceLayoutProvider.layout_of_u8 len with
  | none => .error .layoutError
  | some size =>
    let zeroed := SliceLayoutProvider.is_zeroed_copy_u8 arg
    let mem : List (Option Nat) :=
      if size == 0 then []
      else if zeroed then List.replicate size (some 0)
      else List.replicate size none
    if zeroed then .ok (mem, false)
    else
      match Slice.try_init_copy_u8 len arg with
      | .ok bytes => .ok (bytes, true)
      | .error p => .error (.ctorPanic p)

/-- Value of `usize::MAX`. -/
def USIZE_MAX : Nat := 2 ^ 64 - 1

/-- Modulus of `usize` arithmetic. -/
def USIZE_SIZE : Nat := 2 ^ 64

/-- Model of `ThinVec<T>` (src/thin/src/vec.rs) for element types of
nonzero size (zero-sized element types use a separate `usize::MAX`
capacity representation in the source that these claims do not touch).
`data` is the heap block's element storage: `capacity` slots, of which
`[0, len)` are initialized. -/
structure ThinVec (α : Type) where
  capacity : Nat
  len : Nat
  data : List (Option α)
  deriving DecidableEq, Repr

/-- Model of `new_capacity` (src/thin/src/vec.rs lines 230-235):
`checked_add` for the requested minimum, `wrapping_mul(2)` for doubling,
floor of 4. -/
def new_capacity (capacity additional : Nat) : Option Nat :=
  if capacity + additional ≤ USIZE_MAX then
    some (max (max (capacity + additional) (capacity * 2 % USIZE_SIZE)) 4)
  else none

/-- Size (and alignment) in bytes of `usize`, the type of the two header
fields (`capacity` metadata and `len`) of a `ThinVec` block. -/
def WORD_SIZE : Nat := 8

/-- Model of `Layout::array::<T>(n)` for an element type of size `sz` and
alignment `al`: byte size `sz * n`, failing when it exceeds
`isize::MAX - (al - 1)` (the standard library's `max_size_for_align`
bound, which also subsumes the `usize` multiplication overflow check). -/
def layout_array (sz al n : Nat) : Option Nat :=
  if sz * n ≤ ISIZE_MAX - (al - 1) then some (sz * n) else none

/-- Model of `WithCapacityLayoutProvider::layout_of` (src/thin/src/vec.rs
lines 338-346): `Layout::new::<usize>().extend(Layout::array::<T>(c))`.
The model covers element alignments dividing the `usize` alignment (all
primitive scalars), so the extend inserts no padding; `extend` fails via
`Layout::from_size_align` when the combined size exceeds
`isize::MAX - (align - 1)` for the word alignment. -/
def vec_data_layout (sz al c : Nat) : Option Nat :=
  match layout_array sz al c with
  | none => none
  | some ds =>
    if WORD_SIZE + ds ≤ ISIZE_MAX - (WORD_SIZE - 1) then some (WORD_SIZE + ds)
    else none

/-- Model of `WithHeaderLayoutProvider::layout_of` (src/thin/src/ptr.rs
lines 52-57) at `VecData<T>` with `PushHeader(WithCapacity(c))`: the
`usize` metadata layout extended with the vec data layout (the final
`pad_to_align` only rounds the size and cannot fail). -/
def alloc_ty_layout (sz al c : Nat) : Option Nat :=
  match vec_data_layout sz al c with
  | none => none
  | some ds =>
    if WORD_SIZE + ds ≤ ISIZE_MAX - (WORD_SIZE - 1) then some (WORD_SIZE + ds)
    else none

/-- Model of `new_layout` (src/thin/src/vec.rs lines 237-248): compute the
grown capacity with `new_capacity`, then require the grown block's layout
to exist; returns the new capacity on success. -/
def new_layout (sz al capacity additional : Nat) : Option Nat :=
  match new_capacity capacity additional with
  | none => none
  | some nc =>
    match alloc_ty_layout sz al nc with
    | none => none
    | some _ => some nc

namespace ThinVec

/-- Model of `ThinVec::new`: the handle points at the static `EMPTY`
sentinel (capacity 0, length 0, no storage). -/
def new (α : Type) : ThinVec α := { capacity := 0, len := 0, data := [] }

/-- Model of `ThinVec::with_capacity` for elements of size `sz` and
alignment `al`: capacity 0 is the sentinel; otherwise
`ThinBox::new(WithCapacity(c))` → `init::boxed::boxed` computes the block
layout and panics with "Could not construct layout" when it does not fit
`isize::MAX` (allocation failure itself aborts the process and stays
outside the model). -/
def with_capacity (α : Type) (sz al : Nat) (c : Nat) : PanicOr (ThinVec α) :=
  if c == 0 then .ok (new α)
  else
    match alloc_ty_layout sz al c with
    | none => .error .layoutUnavailable
    | some _ => .ok { capacity := c, len := 0, data := List.replicate c none }

/-- Model of `ThinVec::is_empty`. -/
def is_empty (v : ThinVec α) : Bool := v.len == 0

/-- Model of `ThinVec::is_full`. -/
def is_full (v : ThinVec α) : Bool := v.len == v.capacity

/-- Model of `ThinVec::emplace_unchecked`: construct in the slot at index
`len`, then `len += 1`. -/
def emplace_unchecked (v : ThinVec α) (x : α) : ThinVec α :=
  { v with data := v.data.set v.len (some x), len := v.len + 1 }

/-- Model of `ThinVec::pop_unchecked`: `len -= 1`, then hand out an owning
`Init` to the slot at the new length. -/
def pop_unchecked (v : ThinVec α) : Option α × ThinVec α :=
  (v.data.getD (v.len - 1) none, { v with len := v.len - 1 })

/-- Model of `ThinVec::pop`: `None` on an empty vector, otherwise
`pop_unchecked`. -/
def pop (v : ThinVec α) : Option (Option α) × ThinVec α :=
  if v.is_empty then (none, v)
  else (some v.pop_unchecked.1, v.pop_unchecked.2)

/-- Model of `impl Drop for ThinVec` (src/thin/src/vec.rs lines 57-80):
capacity 0 returns before any teardown or deallocation (the sentinel is
never freed); otherwise the block is deallocated exactly once, and if the
element type needs dropping the elements `[0, len)` are torn down first.
The result pairs the torn-down slots with the number of deallocations. -/
def drop_model (needsDrop : Bool) (v : ThinVec α) : List (Option α) × Nat :=
  if v.capacity == 0 then ([], 0)
  else if needsDrop then (v.data.take v.len, 1)
  else ([], 1)

/-- Model of `ThinVec::reserve_first`: overwrite `self` with a fresh
`with_capacity(additional)` vector (the old value is the unallocated
sentinel, so nothing is dropped); a layout panic of `with_capacity`
propagates. -/
def reserve_first (α : Type) (sz al : Nat) (additional : Nat) : PanicOr (ThinVec α) :=
  with_capacity α sz al additional

/-- Model of `ThinVec::reserve_inner_realloc`: compute `new_layout`,
panicking "Could not calculate new layout" when the grown capacity
overflows or its block layout exceeds `isize::MAX`; otherwise `realloc`
the same block and store the new capacity (the old bytes, including the
length header, are kept). -/
def reserve_inner_realloc (sz al : Nat) (v : ThinVec α) (additional : Nat) :
    PanicOr (ThinVec α) :=
  match new_layout sz al v.capacity additional with
  | none => .error .reserveLayoutError
  | some nc =>
    .ok { capacity := nc, len := v.len,
          data := v.data ++ List.replicate (nc - v.capacity) none }

/-- Model of `ThinVec::reserve_inner_move`: compute the grown capacity
(panicking "Could not calculate new capacity" on `usize` overflow), then
`with_capacity(new_capacity)` — whose layout panic propagates — and drain
every element of `[0, len)` into the fresh block in order. -/
def reserve_inner_move (sz al : Nat) (v : ThinVec α) (additional : Nat) :
    PanicOr (ThinVec α) :=
  match new_capacity v.capacity additional with
  | none => .error .reserveOverflow
  | some nc =>
    match with_capacity α sz al nc with
    | .error p => .error p
    | .ok _ =>
      .ok { capacity := nc, len := v.len,
            data := v.data.take v.len ++ List.replicate (nc - v.len) none }

/-- Model of `ThinVec::reserve_inner`: zero-sized element types panic
unconditionally; the first allocation goes through `reserve_first`,
otherwise the branch is picked by `T::IS_MOVE_TRIVIAL`. -/
def reserve_inner (sz al : Nat) (moveTrivial : Bool) (v : ThinVec α)
    (additional : Nat) : PanicOr (ThinVec α) :=
  if sz == 0 then .error .zstReserve
  else if v.capacity == 0 then reserve_first α sz al additional
  else if moveTrivial then reserve_inner_realloc sz al v additional
  else reserve_inner_move sz al v additional

/-- Model of `ThinVec::reserve` (for elements of nonzero size, where
`capacity()` is the stored header capacity): grow only when the remaining
capacity is smaller than `additional`. -/
def reserve (sz al : Nat) (moveTrivial : Bool) (v : ThinVec α)
    (additional : Nat) : PanicOr (ThinVec α) :=
  if v.capacity - v.len < additional then reserve_inner sz al moveTrivial v additional
  else .ok v

/-- Model of `ThinVec::emplace`: reserve one slot when full, then
construct in place. -/
def emplace (sz al : Nat) (moveTrivial : Bool) (v : ThinVec α) (x : α) :
    PanicOr (ThinVec α) :=
  if v.len == v.capacity then
    (reserve sz al moveTrivial v 1).map (fun v1 => v1.emplace_unchecked x)
  else .ok (v.emplace_unchecked x)

/-- A sequence of single-element `emplace` calls starting from `new()`. -/
def push_all (α : Type) (sz al : Nat) (moveTrivial : Bool) (vs : List α) :
    PanicOr (ThinVec α) :=
  vs.foldlM (fun v x => emplace sz al moveTrivial v x) (new α)

end ThinVec

theorem countOk_append (a b : List (WriteStep α)) :
    countOk (a ++ b) = countOk a + countOk b := by
  simp [countOk, List.countP_append]

/-- Closed form of the writer state reached by folding `apply_step` over a
step list from a fresh writer, as long as the slice has room. -/
theorem foldl_apply_step_spec (n : Nat) (steps : List (WriteStep α))
    (h : steps.length ≤ n) :
    steps.foldl SliceWriter.apply_step (SliceWriter.new α n) =
      { len := n, initCount := countOk steps, iterLen := n - steps.length,
        mem := stepsMem n steps } := by
  induction steps using List.reverseRecOn with
  | nil =>
    simp [SliceWriter.new, stepsMem, countOk]
  | append_singleton steps s ih =>
    have hlt : steps.length < n := by
      simp only [List.length_append, List.length_cons, List.length_nil] at h
      omega
    have hlen : steps.length ≤ n := hlt.le
    have hcursor : n - (n - steps.length) = steps.length := by omega
    rw [List.foldl_append, ih hlen]
    cases s with
    | ok v =>
      have hco : countOk (steps ++ [WriteStep.ok v]) = countOk steps + 1 := by
        simp [countOk_append, countOk]
      have hil : n - (steps ++ [WriteStep.ok v]).length = n - steps.length - 1 := by
        simp only [List.length_append, List.length_cons, List.length_nil]
        omega
      have hmem : stepsMem n (steps ++ [WriteStep.ok v]) =
          (stepsMem n steps).set (n - (n - steps.length)) (some v) := by
        rw [hcursor]
        simp only [stepsMem]
        rw [List.set_append_right _ _ (by simp)]
        have hrep : n - steps.length = (n - (steps.length + 1)) + 1 := by omega
        rw [hrep, List.replicate_succ]
        simp [stepSlot]
      rw [hco, hil, hmem]
      rfl
    | fail =>
      have hco : countOk (steps ++ [WriteStep.fail]) = countOk steps := by
        simp [countOk_append, countOk]
      have hil : n - (steps ++ [WriteStep.fail]).length = n - steps.length - 1 := by
        simp only [List.length_append, List.length_cons, List.length_nil]
        omega
      have hmem : stepsMem n (steps ++ [WriteStep.fail]) = stepsMem n steps := by
        simp only [stepsMem]
        have hrep : n - steps.length = (n - (steps.length + 1)) + 1 := by omega
        rw [hrep, List.replicate_succ]
        simp [stepSlot]
      rw [hco, hil, hmem]
      rfl

theorem apply_step_iterLen (w : SliceWriter α) (s : WriteStep α) :
    (w.apply_step s).iterLen = w.iterLen - 1 := by
  cases s <;> rfl

/-- Running writes through the checked API agrees with the plain fold as
long as the slice has room for every write. -/
theorem run_writes_eq_foldl (steps : List (WriteStep α)) (w : SliceWriter α)
    (h : steps.length ≤ w.iterLen) :
    w.run_writes steps = steps.foldl SliceWriter.apply_step w := by
  induction steps generalizing w with
  | nil => rfl
  | cons s rest ih =>
    simp only [List.length_cons] at h
    have hc : w.is_complete = false := by
      simp only [SliceWriter.is_complete, SliceWriter.remaining_len, beq_eq_false_iff_ne,
        ne_eq]
      omega
    rw [SliceWriter.run_writes, hc]
    simp only [Bool.false_eq_true, if_false, List.foldl_cons]
    exact ih _ (by rw [apply_step_iterLen]; omega)

theorem get_remaining_start_eq_zero (w : SliceWriter α) :
    w.get_remaining_start = 0 := by
  simp [SliceWriter.get_remaining_start]

theorem drop_teardown_eq_range (w : SliceWriter α) :
    w.drop_teardown = List.range w.initCount := by
  simp [SliceWriter.drop_teardown, get_remaining_start_eq_zero]

theorem countOk_map_ok (vs : List α) : countOk (vs.map WriteStep.ok) = vs.length := by
  induction vs with
  | nil => rfl
  | cons v vs ih =>
    simp only [countOk] at ih
    simp [countOk, List.countP_cons, ih]

theorem getD_map_some (vs : List α) (i : Nat) :
    (vs.map some).getD i none = vs[i]? := by
  induction vs generalizing i with
  | nil => cases i <;> rfl
  | cons v vs ih =>
    cases i with
    | zero => simp
    | succ j => simpa using ih j

theorem getD_append_left (l l' : List β) (i : Nat) (d : β) (h : i < l.length) :
    (l ++ l').getD i d = l.getD i d := by
  induction l generalizing i with
  | nil => simp at h
  | cons a l ih =>
    cases i with
    | zero => rfl
    | succ j =>
      simp only [List.length_cons] at h
      simpa [List.getD] using ih j (by omega)

/-- Claim C1: a `SliceWriter` over a slice of length `n` that is dropped
without `finish` after `k` successful element writes — whether it stopped
normally (`failTail = false`) or after a construction error/panic
(`failTail = true`) — tears down exactly the slots `[0, k)` (each listed
once, each holding the written value) and never a slot of the raw suffix
`[k, n)`. -/
theorem sliceWriter_abandon_teardown (α : Type) (n k : Nat) (vs : List α)
    (failTail : Bool) (hk : vs.length = k)
    (hroom : k + (if failTail then 1 else 0) ≤ n) :
    ((SliceWriter.new α n).run_writes
        (vs.map WriteStep.ok ++
          (if failTail then [WriteStep.fail] else []))).drop_teardown =
      List.range k ∧
    ((SliceWriter.new α n).run_writes
        (vs.map WriteStep.ok ++
          (if failTail then [WriteStep.fail] else []))).drop_teardown.Nodup ∧
    (∀ i ∈ ((SliceWriter.new α n).run_writes
        (vs.map WriteStep.ok ++
          (if failTail then [WriteStep.fail] else []))).drop_teardown,
      i < k ∧
      ((SliceWriter.new α n).run_writes
        (vs.map WriteStep.ok ++
          (if failTail then [WriteStep.fail] else []))).mem.getD i none = vs[i]?) ∧
    (∀ i, k ≤ i → i ∉ ((SliceWriter.new α n).run_writes
        (vs.map WriteStep.ok ++
          (if failTail then [WriteStep.fail] else []))).drop_teardown) := by
  set steps : List (WriteStep α) :=
    vs.map WriteStep.ok ++ (if failTail then [WriteStep.fail] else []) with hsteps
  set w : SliceWriter α := (SliceWriter.new α n).run_writes steps with hwdef
  have hsl : steps.length = k + (if failTail then 1 else 0) := by
    cases failTail <;> simp [hsteps, hk]
  have hrun : w = steps.foldl SliceWriter.apply_step (SliceWriter.new α n) :=
    run_writes_eq_foldl steps _ (by rw [hsl]; exact hroom)
  have hclosed := foldl_apply_step_spec n steps (by rw [hsl]; exact hroom)
  rw [hclosed] at hrun
  have hcount : countOk steps = k := by
    simp only [hsteps, countOk_append]
    rw [show countOk (vs.map WriteStep.ok) = vs.length from countOk_map_ok vs, hk]
    cases failTail <;> simp [countOk]
  have hteardown : w.drop_teardown = List.range k := by
    rw [drop_teardown_eq_range, hrun, hcount]
  refine ⟨hteardown, ?_, ?_, ?_⟩
  · rw [hteardown]; exact List.nodup_range k
  · intro i hi
    rw [hteardown, List.mem_range] at hi
    refine ⟨hi, ?_⟩
    have hmem : w.mem = vs.map some ++
        ((if failTail then [WriteStep.fail] else []).map stepSlot ++
          List.replicate (n - steps.length) none) := by
      rw [hrun]
      simp [stepsMem, hsteps, stepSlot]
    rw [hmem, getD_append_left _ _ _ _ (by simp [hk]; omega), getD_map_some]
  · intro i hki
    rw [hteardown, List.mem_range]
    omega

theorem write_all_ok (vs : List α) (w : SliceWriter α) (h : vs.length ≤ w.iterLen) :
    w.write_all vs = .ok (vs.foldl SliceWriter.init_unchecked w) := by
  induction vs generalizing w with
  | nil => rfl
  | cons v rest ih =>
    simp only [List.length_cons] at h
    have hc : w.is_complete = false := by
      simp only [SliceWriter.is_complete, SliceWriter.remaining_len, beq_eq_false_iff_ne,
        ne_eq]
      omega
    have hstep : w.init v = .ok (w.init_unchecked v) := by
      simp [SliceWriter.init, hc]
    have hbind : w.write_all (v :: rest) = (w.init_unchecked v).write_all rest := by
      simp only [SliceWriter.write_all, List.foldlM, hstep]
      rfl
    rw [hbind, List.foldl_cons]
    exact ih _ (by simp [SliceWriter.init_unchecked]; omega)

theorem foldl_init_unchecked_eq_apply_step (vs : List α) (w : SliceWriter α) :
    vs.foldl SliceWriter.init_unchecked w =
      (vs.map WriteStep.ok).foldl SliceWriter.apply_step w := by
  induction vs generalizing w with
  | nil => rfl
  | cons v rest ih => simpa using ih (w.init_unchecked v)

theorem finish_complete_spec (w : SliceWriter α) (hcomp : w.iterLen = 0)
    (hpo : w.len = w.initCount) :
    w.get_remaining = w.mem.take w.initCount ∧
    w.try_finish = some (.ok (w.mem.take w.initCount)) ∧
    w.finish = .ok (w.mem.take w.initCount) := by
  have hc : w.is_complete = true := by
    simp [SliceWriter.is_complete, SliceWriter.remaining_len, hcomp]
  have hp : w.is_poisoned = false := by
    simp [SliceWriter.is_poisoned, hcomp, hpo]
  have hg : w.get_remaining = w.mem.take w.initCount := by
    simp [SliceWriter.get_remaining, get_remaining_start_eq_zero]
  refine ⟨hg, ?_, ?_⟩
  · simp [SliceWriter.try_finish, hc, SliceWriter.finish_unchecked, hp, hg]
  · simp [SliceWriter.finish, SliceWriter.try_finish, hc, SliceWriter.finish_unchecked,
      hp, hg]

/-- Claim C3: after exactly `n` successful writes of `v_0 .. v_(n-1)` on a
fresh writer over `n` slots, `finish` succeeds and reads back exactly the
written values over the whole range `[0, n)`; and (for every writer)
`try_finish` returns `some` exactly when `remaining_len = 0`. -/
theorem sliceWriter_round_trip (α : Type) (n : Nat) (vs : List α)
    (h : vs.length = n) :
    (∃ w : SliceWriter α,
      (SliceWriter.new α n).write_all vs = .ok w ∧
      w.remaining_len = 0 ∧
      w.finish = .ok (vs.map some) ∧
      w.try_finish = some (.ok (vs.map some)) ∧
      w.get_remaining.length = n) ∧
    (∀ u : SliceWriter α, (u.try_finish).isSome ↔ u.remaining_len = 0) := by
  constructor
  · have hall := write_all_ok vs (SliceWriter.new α n)
      (by simp [SliceWriter.new, h])
    rw [foldl_init_unchecked_eq_apply_step,
      foldl_apply_step_spec n (vs.map WriteStep.ok) (by simp [h])] at hall
    have hco : countOk (vs.map WriteStep.ok) = n := by rw [countOk_map_ok, h]
    have hmm : stepsMem n (vs.map WriteStep.ok) = vs.map some := by
      simp [stepsMem, List.map_map, Function.comp, stepSlot, h]
    have htake : (stepsMem n (vs.map WriteStep.ok)).take
        (countOk (vs.map WriteStep.ok)) = vs.map some := by
      rw [hmm, hco]
      exact List.take_of_length_le (by simp [h])
    obtain ⟨hg, htf, hf⟩ := finish_complete_spec
      (w := { len := n, initCount := countOk (vs.map WriteStep.ok),
              iterLen := n - (vs.map WriteStep.ok).length,
              mem := stepsMem n (vs.map WriteStep.ok) })
      (by simp [h]) (by simp [hco])
    refine ⟨_, hall, ?_, ?_, ?_, ?_⟩
    · simp [SliceWriter.remaining_len, h]
    · rw [hf]; exact congrArg Except.ok htake
    · rw [htf]; exact congrArg (fun l => some (Except.ok l)) htake
    · rw [hg]
      show ((stepsMem n (vs.map WriteStep.ok)).take
        (countOk (vs.map WriteStep.ok))).length = n
      rw [htake]
      simp [h]
  · intro u
    by_cases hc : u.iterLen = 0 <;>
      simp [SliceWriter.try_finish, SliceWriter.is_complete, SliceWriter.remaining_len, hc]

theorem run_writes_poison_mono (steps : List (WriteStep α)) (w : SliceWriter α)
    (hInv : w.Inv) (hp : w.is_poisoned = true) :
    (w.run_writes steps).is_poisoned = true ∧ (w.run_writes steps).Inv := by
  induction steps generalizing w with
  | nil => exact ⟨hp, hInv⟩
  | cons s rest ih =>
    rw [SliceWriter.run_writes]
    by_cases hc : w.is_complete = true
    · rw [hc]
      simpa using ⟨hp, hInv⟩
    · rw [Bool.not_eq_true] at hc
      rw [hc]
      simp only [Bool.false_eq_true, if_false]
      obtain ⟨h1, h2⟩ := hInv
      have hiter : 1 ≤ w.iterLen := by
        simp only [SliceWriter.is_complete, SliceWriter.remaining_len,
          beq_eq_false_iff_ne, ne_eq] at hc
        omega
      simp only [SliceWriter.is_poisoned, bne_iff_ne, ne_eq, decide_eq_true_eq] at hp
      cases s with
      | ok v =>
        refine ih _ ⟨?_, ?_⟩ ?_ <;>
          simp only [SliceWriter.apply_step, WriteStep.toExcept,
            SliceWriter.try_init_unchecked, SliceWriter.is_poisoned, bne_iff_ne, ne_eq,
            decide_eq_true_eq] <;> omega
      | fail =>
        refine ih _ ⟨?_, ?_⟩ ?_ <;>
          simp only [SliceWriter.apply_step, WriteStep.toExcept,
            SliceWriter.try_init_unchecked, SliceWriter.is_poisoned, bne_iff_ne, ne_eq,
            decide_eq_true_eq] <;> omega

theorem finish_of_poisoned (w : SliceWriter α) (hp : w.is_poisoned = true) :
    (∀ xs, w.finish ≠ .ok xs) ∧
    (w.is_complete = true → w.finish = .error .poisonedWriter) := by
  by_cases hc : w.is_complete = true
  · simp [SliceWriter.finish, SliceWriter.try_finish, SliceWriter.finish_unchecked, hc, hp]
  · rw [Bool.not_eq_true] at hc
    simp [SliceWriter.finish, SliceWriter.try_finish, hc]

/-- Claim C9: a failing `try_init` consumes the slot from the remaining
range without counting it as initialized and poisons the writer; the poison
survives every later sequence of checked writes, and `finish` never returns
a handle on a poisoned writer — once the writer is complete, `finish`
panics with the poisoned-writer panic. -/
theorem sliceWriter_poison_permanent (α ε : Type) (w : SliceWriter α) (e : ε)
    (hInv : w.Inv) (hc : w.is_complete = false) :
    ∃ w₁ : SliceWriter α,
      w.try_init (Except.error e) = .ok (w₁, some e) ∧
      w₁.remaining_len = w.remaining_len - 1 ∧
      w₁.initCount = w.initCount ∧
      w₁.is_poisoned = true ∧
      ∀ steps : List (WriteStep α),
        (w₁.run_writes steps).is_poisoned = true ∧
        (∀ xs, (w₁.run_writes steps).finish ≠ .ok xs) ∧
        ((w₁.run_writes steps).is_complete = true →
          (w₁.run_writes steps).finish = .error .poisonedWriter) := by
  obtain ⟨h1, h2⟩ := hInv
  have hiter : 1 ≤ w.iterLen := by
    simp only [SliceWriter.is_complete, SliceWriter.remaining_len,
      beq_eq_false_iff_ne, ne_eq] at hc
    omega
  refine ⟨{ w with iterLen := w.iterLen - 1 }, ?_, rfl, rfl, ?_, ?_⟩
  · simp [SliceWriter.try_init, hc, SliceWriter.try_init_unchecked]
  · simp only [SliceWriter.is_poisoned, bne_iff_ne, ne_eq, decide_eq_true_eq]
    omega
  · intro steps
    have hp : ({ w with iterLen := w.iterLen - 1 } : SliceWriter α).is_poisoned = true := by
      simp only [SliceWriter.is_poisoned, bne_iff_ne, ne_eq, decide_eq_true_eq]
      omega
    have hInv' : ({ w with iterLen := w.iterLen - 1 } : SliceWriter α).Inv :=
      ⟨by simp; omega, by simp; omega⟩
    obtain ⟨hpo, _⟩ := run_writes_poison_mono steps _ hInv' hp
    obtain ⟨hne, hcom⟩ := finish_of_poisoned _ hpo
    exact ⟨hpo, hne, hcom⟩

/-- Claim C2: constructing a slice destination of length `n` from a source
of length `m ≠ n` through `move_ctor`, `take_ctor` or `clone_ctor` fails
with the length error reporting expected `n` and found `m` (for both the
trivial and the element-wise configuration), before constructing anything:
the guard precedes both construction paths. -/
theorem slice_ctor_length_mismatch (α : Type) (n m : Nat) (p : List α) (b : Bool)
    (hm : p.length = m) (hne : n ≠ m) :
    Slice.move_ctor α n p b = .error (.lengthMismatch n m) ∧
    Slice.take_ctor α n p b = .error (.lengthMismatch n m) ∧
    Slice.clone_ctor α n p b = .error (.lengthMismatch n m) := by
  subst hm
  simp [Slice.move_ctor, Slice.take_ctor, Slice.clone_ctor, hne]

theorem finish_unchecked_complete (w : SliceWriter α) (hcomp : w.iterLen = 0)
    (hpo : w.len = w.initCount) :
    w.finish_unchecked = .ok (w.mem.take w.initCount) := by
  have hc : w.is_complete = true := by
    simp [SliceWriter.is_complete, SliceWriter.remaining_len, hcomp]
  have hp : w.is_poisoned = false := by
    simp [SliceWriter.is_poisoned, hcomp, hpo]
  simp [SliceWriter.finish_unchecked, hc, hp, SliceWriter.get_remaining,
    get_remaining_start_eq_zero]

theorem try_for_each_map_ok (vs : List α) (w : SliceWriter α) :
    w.try_for_each (vs.map (Except.ok : α → Except ε α)) =
      (vs.foldl SliceWriter.init_unchecked w, none) := by
  induction vs generalizing w with
  | nil => rfl
  | cons v rest ih => simpa [SliceWriter.try_for_each] using ih (w.init_unchecked v)

theorem try_for_each_first_error (pre : List α) (e : ε) (rest : List (Except ε α))
    (w : SliceWriter α) :
    w.try_for_each (pre.map Except.ok ++ Except.error e :: rest) =
      ((pre.map WriteStep.ok ++ [WriteStep.fail]).foldl SliceWriter.apply_step w,
        some e) := by
  induction pre generalizing w with
  | nil => rfl
  | cons p pre ih => simpa [SliceWriter.try_for_each] using ih (w.init_unchecked p)

theorem stepSlot_comp_ok :
    (stepSlot ∘ WriteStep.ok : α → Option α) = some := by
  funext v
  rfl

theorem iter_init_of_run_err (α ε : Type) (n : Nat) (items : List (Except ε α))
    (W : SliceWriter α) (e : ε)
    (hrun : Slice.iter_init_run α ε n items = (W, some e)) :
    Slice.iter_init α ε n items =
      Except.ok (Except.error (IterInitError.initError e)) := by
  rw [Slice.iter_init, hrun]

theorem iter_init_of_run_incomplete (α ε : Type) (n : Nat)
    (items : List (Except ε α)) (W : SliceWriter α)
    (hrun : Slice.iter_init_run α ε n items = (W, none))
    (hcomp : W.iterLen ≠ 0) :
    Slice.iter_init α ε n items =
      Except.ok (Except.error IterInitError.notEnoughItems) := by
  rw [Slice.iter_init, hrun]
  have hc : W.is_complete = false := by
    simp [SliceWriter.is_complete, SliceWriter.remaining_len, hcomp]
  show (match W.try_finish with
        | some r => r.map Except.ok
        | none => Except.ok (Except.error IterInitError.notEnoughItems)) = _
  rw [SliceWriter.try_finish, hc]
  simp

theorem iter_init_of_run_complete (α ε : Type) (n : Nat)
    (items : List (Except ε α)) (W : SliceWriter α)
    (hrun : Slice.iter_init_run α ε n items = (W, none))
    (hcomp : W.iterLen = 0) (hpo : W.len = W.initCount) :
    Slice.iter_init α ε n items =
      Except.ok (Except.ok (W.mem.take W.initCount)) := by
  rw [Slice.iter_init, hrun]
  show (match W.try_finish with
        | some r => r.map Except.ok
        | none => Except.ok (Except.error IterInitError.notEnoughItems)) = _
  rw [(finish_complete_spec W hcomp hpo).2.1]
  rfl

/-- Claim C5: an `IterInit` fill of a destination of length `n` never reads
more than `n` items from the source.  If the source yields fewer than `n`
items (all constructing fine) the fill fails with `NotEnoughItems` and the
abandoned writer tears down exactly the constructed prefix; if it yields at
least `n` items and the first `n` construct fine, the fill consumes exactly
`n` items and succeeds with those values; and if some item among the first
`n` consumed fails to construct, that element's error is propagated as
`InitError` and the abandoned writer tears down exactly the constructed
prefix. -/
theorem iter_init_spec (α ε : Type) (n : Nat) :
    (∀ vs : List α, vs.length < n →
      Slice.iter_init α ε n (vs.map Except.ok) = .ok (.error .notEnoughItems) ∧
      (Slice.iter_init_run α ε n (vs.map Except.ok)).1.drop_teardown =
        List.range vs.length ∧
      n - (Slice.iter_init_run α ε n (vs.map Except.ok)).1.iterLen = vs.length) ∧
    (∀ vs : List α, n ≤ vs.length →
      Slice.iter_init α ε n (vs.map Except.ok) = .ok (.ok ((vs.take n).map some)) ∧
      n - (Slice.iter_init_run α ε n (vs.map Except.ok)).1.iterLen = n) ∧
    (∀ (pre : List α) (e : ε) (rest : List (Except ε α)), pre.length < n →
      Slice.iter_init α ε n (pre.map Except.ok ++ Except.error e :: rest) =
        .ok (.error (.initError e)) ∧
      (Slice.iter_init_run α ε n
          (pre.map Except.ok ++ Except.error e :: rest)).1.drop_teardown =
        List.range pre.length ∧
      n - (Slice.iter_init_run α ε n
          (pre.map Except.ok ++ Except.error e :: rest)).1.iterLen =
        pre.length + 1) := by
  refine ⟨?_, ?_, ?_⟩
  · intro vs hvs
    have htake : (vs.map (Except.ok : α → Except ε α)).take n = vs.map Except.ok :=
      List.take_of_length_le (by simpa using hvs.le)
    have hrun : Slice.iter_init_run α ε n (vs.map Except.ok) =
        ({ len := n, initCount := countOk (vs.map WriteStep.ok),
           iterLen := n - (vs.map WriteStep.ok).length,
           mem := stepsMem n (vs.map WriteStep.ok) }, none) := by
      unfold Slice.iter_init_run
      rw [show (SliceWriter.new α n).remaining_len = n from rfl, htake,
        try_for_each_map_ok, foldl_init_unchecked_eq_apply_step,
        foldl_apply_step_spec n _ (by simpa using hvs.le)]
    refine ⟨?_, ?_, ?_⟩
    · exact iter_init_of_run_incomplete α ε n _ _ hrun (by simp; omega)
    · rw [hrun, drop_teardown_eq_range]
      simp [countOk_map_ok]
    · rw [hrun]
      simp only [List.length_map]
      omega
  · intro vs hvs
    have hlt : (vs.take n).length = n := by
      rw [List.length_take]
      omega
    have htake : (vs.map (Except.ok : α → Except ε α)).take n =
        (vs.take n).map Except.ok := by
      rw [List.map_take]
    have hrun : Slice.iter_init_run α ε n (vs.map Except.ok) =
        ({ len := n, initCount := countOk ((vs.take n).map WriteStep.ok),
           iterLen := n - ((vs.take n).map WriteStep.ok).length,
           mem := stepsMem n ((vs.take n).map WriteStep.ok) }, none) := by
      unfold Slice.iter_init_run
      rw [show (SliceWriter.new α n).remaining_len = n from rfl, htake,
        try_for_each_map_ok, foldl_init_unchecked_eq_apply_step,
        foldl_apply_step_spec n _ (by simp)]
    constructor
    · have hres := iter_init_of_run_complete α ε n _ _ hrun
        (by show n - ((vs.take n).map WriteStep.ok).length = 0
            rw [List.length_map, hlt]
            omega)
        (by show n = countOk ((vs.take n).map WriteStep.ok)
            rw [countOk_map_ok, hlt])
      rw [hres]
      have hmemtake :
          ({ len := n, initCount := countOk ((vs.take n).map WriteStep.ok),
             iterLen := n - ((vs.take n).map WriteStep.ok).length,
             mem := stepsMem n ((vs.take n).map WriteStep.ok) } :
             SliceWriter α).mem.take
            ({ len := n, initCount := countOk ((vs.take n).map WriteStep.ok),
               iterLen := n - ((vs.take n).map WriteStep.ok).length,
               mem := stepsMem n ((vs.take n).map WriteStep.ok) } :
               SliceWriter α).initCount = (vs.take n).map some := by
        simp only [countOk_map_ok, hlt, stepsMem, List.length_map, Nat.sub_self,
          List.replicate_zero, List.append_nil, List.map_map, stepSlot_comp_ok]
        exact List.take_of_length_le (by simp [hlt])
      rw [hmemtake]
    · rw [hrun]
      show n - (n - ((vs.take n).map WriteStep.ok).length) = n
      rw [List.length_map, hlt]
      omega
  · intro pre e rest hpre
    have hm : n - pre.length = (n - pre.length - 1) + 1 := by omega
    have htake : (pre.map Except.ok ++ Except.error e :: rest).take n =
        pre.map Except.ok ++ Except.error e :: rest.take (n - pre.length - 1) := by
      rw [List.take_append_eq_append_take,
        List.take_of_length_le (by simpa using hpre.le)]
      simp only [List.length_map]
      congr 1
      conv_lhs => rw [hm]
      rw [List.take_succ_cons]
    have hrun : Slice.iter_init_run α ε n (pre.map Except.ok ++ Except.error e :: rest) =
        ({ len := n, initCount := countOk (pre.map WriteStep.ok ++ [WriteStep.fail]),
           iterLen := n - (pre.map WriteStep.ok ++ [WriteStep.fail]).length,
           mem := stepsMem n (pre.map WriteStep.ok ++ [WriteStep.fail]) }, some e) := by
      unfold Slice.iter_init_run
      rw [show (SliceWriter.new α n).remaining_len = n from rfl, htake,
        try_for_each_first_error,
        foldl_apply_step_spec n _ (by simp; omega)]
    have hcnt : countOk (pre.map WriteStep.ok ++ [WriteStep.fail]) = pre.length := by
      rw [countOk_append, countOk_map_ok]
      simp [countOk]
    refine ⟨?_, ?_, ?_⟩
    · exact iter_init_of_run_err α ε n _ _ e hrun
    · rw [hrun, drop_teardown_eq_range, hcnt]
    · rw [hrun]
      simp only [List.length_append, List.length_map, List.length_cons,
        List.length_nil]
      omega


theorem countOk_replicate_ok (n : Nat) (v : α) :
    countOk (List.replicate n (WriteStep.ok v)) = n := by
  rw [show List.replicate n (WriteStep.ok v) = (List.replicate n v).map WriteStep.ok
      from (List.map_replicate).symm,
    countOk_map_ok, List.length_replicate]

theorem stepsMem_replicate_ok (n : Nat) (v : α) :
    stepsMem n (List.replicate n (WriteStep.ok v)) = List.replicate n (some v) := by
  simp [stepsMem, List.map_replicate, stepSlot]

theorem copy_args_loop_eq_foldl (ctor : Nat → α) (arg : Nat) (fuel : Nat)
    (w : SliceWriter α) (h : w.iterLen ≤ fuel) :
    Slice.copy_args_loop ctor arg fuel w =
      (List.replicate w.iterLen (ctor arg)).foldl SliceWriter.init_unchecked w := by
  induction fuel generalizing w with
  | zero =>
    have h0 : w.iterLen = 0 := Nat.le_zero.mp h
    rw [h0]
    rfl
  | succ fuel ih =>
    simp only [Slice.copy_args_loop]
    by_cases hc : w.is_complete = true
    · have h0 : w.iterLen = 0 := by
        simpa [SliceWriter.is_complete, SliceWriter.remaining_len] using hc
      simp [hc, h0]
    · rw [Bool.not_eq_true] at hc
      simp only [hc, Bool.false_eq_true, if_false]
      have h1 : 1 ≤ w.iterLen := by
        simp only [SliceWriter.is_complete, SliceWriter.remaining_len,
          beq_eq_false_iff_ne, ne_eq] at hc
        omega
      rw [ih _ (by show w.iterLen - 1 ≤ fuel; omega)]
      have hrep : w.iterLen = (w.iterLen - 1) + 1 := by omega
      conv_rhs => rw [hrep, List.replicate_succ]
      rw [List.foldl_cons]
      rfl

theorem try_init_copy_u8_spec (n arg : Nat) :
    Slice.try_init_copy_u8 n arg = .ok (List.replicate n (some arg)) := by
  unfold Slice.try_init_copy_u8
  rw [copy_args_loop_eq_foldl _ _ _ _ (by show n ≤ n; exact Nat.le_refl n)]
  rw [show (SliceWriter.new Nat n).iterLen = n from rfl]
  rw [show List.replicate n (u8_ctor arg) = List.replicate n arg from rfl]
  rw [foldl_init_unchecked_eq_apply_step, List.map_replicate]
  rw [foldl_apply_step_spec n _ (by simp)]
  have hmem : (stepsMem n (List.replicate n (WriteStep.ok arg))).take
      (countOk (List.replicate n (WriteStep.ok arg))) = List.replicate n (some arg) := by
    rw [stepsMem_replicate_ok, countOk_replicate_ok, List.take_replicate]
    simp
  rw [finish_unchecked_complete _
    (by show n - (List.replicate n (WriteStep.ok arg)).length = 0; simp)
    (by show n = countOk (List.replicate n (WriteStep.ok arg))
        rw [countOk_replicate_ok])]
  exact congrArg Except.ok hmem

/-- Claim C4: whenever the layout provider reports `is_zeroed = true` for
the `[u8]`/`CopyArgsLen` request, `try_boxed_with` allocates zeroed memory
and skips the constructor entirely (flag `false`), and the resulting byte
pattern is bit-identical to the one the general element-wise construction
path produces for the same request; in particular a 10-element `u8`
sequence built via the zero request yields ten zero bytes. -/
theorem zero_fill_shortcut_equiv (len arg : Nat) (hlen : len ≤ ISIZE_MAX)
    (hz : SliceLayoutProvider.is_zeroed_copy_u8 arg = true) :
    try_boxed_u8_copy len arg = .ok (List.replicate len (some 0), false) ∧
    Slice.try_init_copy_u8 len arg = .ok (List.replicate len (some arg)) ∧
    (List.replicate len (some 0) : List (Option Nat)) =
      List.replicate len (some arg) := by
  have harg : arg = 0 := by
    simpa [SliceLayoutProvider.is_zeroed_copy_u8,
      ScalarLayoutProvider.is_zeroed_u8] using hz
  subst harg
  refine ⟨?_, try_init_copy_u8_spec len 0, rfl⟩
  unfold try_boxed_u8_copy
  rw [show SliceLayoutProvider.layout_of_u8 len = some len from by
    simp [SliceLayoutProvider.layout_of_u8, hlen]]
  by_cases h0 : len = 0
  · subst h0
    rfl
  · simp [SliceLayoutProvider.is_zeroed_copy_u8, ScalarLayoutProvider.is_zeroed_u8, h0]

theorem alloc_ty_layout_isSome_iff (sz al c : Nat) :
    (alloc_ty_layout sz al c).isSome = true ↔
      (sz * c ≤ ISIZE_MAX - (al - 1) ∧
       WORD_SIZE + sz * c ≤ ISIZE_MAX - (WORD_SIZE - 1) ∧
       WORD_SIZE + (WORD_SIZE + sz * c) ≤ ISIZE_MAX - (WORD_SIZE - 1)) := by
  unfold alloc_ty_layout vec_data_layout layout_array
  by_cases h1 : sz * c ≤ ISIZE_MAX - (al - 1)
  · by_cases h2 : WORD_SIZE + sz * c ≤ ISIZE_MAX - (WORD_SIZE - 1)
    · by_cases h3 : WORD_SIZE + (WORD_SIZE + sz * c) ≤ ISIZE_MAX - (WORD_SIZE - 1) <;>
        simp [h1, h2, h3]
    · simp [h1, h2]
  · simp [h1]

theorem alloc_ty_layout_mono (sz al : Nat) (c c' : Nat) (hcc : c ≤ c')
    (h : (alloc_ty_layout sz al c').isSome = true) :
    (alloc_ty_layout sz al c).isSome = true := by
  rw [alloc_ty_layout_isSome_iff] at h ⊢
  have hm : sz * c ≤ sz * c' := Nat.mul_le_mul_left sz hcc
  omega

theorem alloc_ty_layout_isSome_of_le (sz al c : Nat) (hal : al ≤ WORD_SIZE)
    (h : 2 * WORD_SIZE + sz * c + (WORD_SIZE - 1) ≤ ISIZE_MAX) :
    (alloc_ty_layout sz al c).isSome = true := by
  rw [alloc_ty_layout_isSome_iff]
  omega

theorem reserve_grow_eq (α : Type) (sz al : Nat) (v : ThinVec α) (mt : Bool)
    (additional nc : Nat)
    (hsz : sz ≠ 0) (hgrow : v.capacity - v.len < additional) (hcap : v.capacity ≠ 0)
    (hnc : new_capacity v.capacity additional = some nc)
    (hlay : (alloc_ty_layout sz al nc).isSome = true) :
    ThinVec.reserve sz al mt v additional =
      .ok { capacity := nc, len := v.len,
            data := if mt then v.data ++ List.replicate (nc - v.capacity) none
                    else v.data.take v.len ++ List.replicate (nc - v.len) none } := by
  obtain ⟨L, hL⟩ := Option.isSome_iff_exists.mp hlay
  have hnl : new_layout sz al v.capacity additional = some nc := by
    rw [new_layout, hnc]
    show (match alloc_ty_layout sz al nc with
          | none => none
          | some _ => some nc) = some nc
    rw [hL]
  have hnc4 : 4 ≤ nc := by
    unfold new_capacity at hnc
    by_cases hc : v.capacity + additional ≤ USIZE_MAX
    · rw [if_pos hc] at hnc
      injection hnc with h
      omega
    · rw [if_neg hc] at hnc
      simp at hnc
  have hnc0 : (nc == 0) = false := by
    simp
    omega
  have hs0 : (sz == 0) = false := by simp [hsz]
  have hwc : ThinVec.with_capacity α sz al nc =
      .ok { capacity := nc, len := 0, data := List.replicate nc none } := by
    simp only [ThinVec.with_capacity, hnc0, Bool.false_eq_true, if_false, hL]
  cases mt <;>
    simp [ThinVec.reserve, hgrow, ThinVec.reserve_inner, hs0, hcap,
      ThinVec.reserve_inner_move, ThinVec.reserve_inner_realloc, hnl, hnc, hwc]

/-- Claim C6 counterexample: on a fresh `ThinVec` of `i32` (element size 4,
alignment 4; capacity 0) the grow condition of `reserve(1)` holds, yet the
resulting capacity is 1, not `max(capacity + additional, capacity * 2, 4)
= 4` — the first allocation uses exactly `additional`, so the claimed
formula fails at capacity 0. -/
theorem reserve_growth_cex :
    (ThinVec.new Nat).capacity - (ThinVec.new Nat).len < 1 ∧
    ThinVec.reserve 4 4 false (ThinVec.new Nat) 1 =
      .ok { capacity := 1, len := 0, data := [none] } ∧
    ({ capacity := 1, len := 0, data := [none] } : ThinVec Nat).capacity ≠
      max (max ((ThinVec.new Nat).capacity + 1) ((ThinVec.new Nat).capacity * 2)) 4 := by
  refine ⟨by decide, ?_, by decide⟩
  rfl

/-- Claim C6 (amended): when `reserve(additional)` must grow a vector of
nonzero current capacity — provided the `usize` arithmetic does not
overflow and the grown block's byte layout fits `isize::MAX` (otherwise
the source panics in `new_layout`/`with_capacity`) — the target capacity
is exactly `max(current_capacity + additional, current_capacity * 2, 4)`;
when the current capacity is 0 the first allocation builds a fresh block —
never resizing the sentinel — whose capacity is exactly `additional`. -/
theorem reserve_growth_formula (α : Type) (sz al : Nat) (v : ThinVec α) (mt : Bool)
    (additional : Nat)
    (hsz : sz ≠ 0)
    (hgrow : v.capacity - v.len < additional)
    (hadd : v.capacity + additional ≤ USIZE_MAX)
    (hmul : v.capacity * 2 ≤ USIZE_MAX) :
    (0 < v.capacity →
      (alloc_ty_layout sz al
          (max (max (v.capacity + additional) (v.capacity * 2)) 4)).isSome = true →
      ∃ v1 : ThinVec α, ThinVec.reserve sz al mt v additional = .ok v1 ∧
        v1.capacity = max (max (v.capacity + additional) (v.capacity * 2)) 4 ∧
        v1.len = v.len) ∧
    (v.capacity = 0 →
      (alloc_ty_layout sz al additional).isSome = true →
      ThinVec.reserve sz al mt v additional =
        .ok { capacity := additional, len := 0,
              data := List.replicate additional none }) := by
  constructor
  · intro hcap hlay
    have hnc : new_capacity v.capacity additional =
        some (max (max (v.capacity + additional) (v.capacity * 2)) 4) := by
      rw [new_capacity, if_pos hadd,
        Nat.mod_eq_of_lt (by unfold USIZE_SIZE; unfold USIZE_MAX at hmul; omega)]
    exact ⟨_, reserve_grow_eq α sz al v mt additional _ hsz hgrow (by omega) hnc hlay,
      rfl, rfl⟩
  · intro hcap0 hlay
    obtain ⟨L, hL⟩ := Option.isSome_iff_exists.mp hlay
    have hadd0 : additional ≠ 0 := by
      rw [hcap0] at hgrow
      omega
    have hs0 : (sz == 0) = false := by simp [hsz]
    simp [ThinVec.reserve, hgrow, ThinVec.reserve_inner, hs0, hcap0,
      ThinVec.reserve_first, ThinVec.with_capacity, hadd0, hL]

theorem emplace_ok (α : Type) (sz al : Nat) (mt : Bool) (v : ThinVec α) (x : α)
    (hsz : sz ≠ 0)
    (hlc : v.len ≤ v.capacity) (hdl : v.data.length = v.capacity)
    (hov : v.capacity + 1 ≤ USIZE_MAX) (hov2 : v.capacity * 2 ≤ USIZE_MAX)
    (hlay : v.len = v.capacity →
      (alloc_ty_layout sz al
        (max (max (v.capacity + 1) (v.capacity * 2)) 4)).isSome = true) :
    ∃ v1 : ThinVec α, ThinVec.emplace sz al mt v x = .ok v1 ∧
      v1.len = v.len + 1 ∧ v1.len ≤ v1.capacity ∧
      v1.data.length = v1.capacity ∧
      v1.capacity ≤ max v.capacity (max (max (v.len + 1) (v.len * 2)) 4) := by
  by_cases hfull : v.len = v.capacity
  · by_cases hc0 : v.capacity = 0
    · have hl1 : (alloc_ty_layout sz al 1).isSome = true :=
        alloc_ty_layout_mono sz al 1 _ (by omega) (hlay hfull)
      obtain ⟨L, hL⟩ := Option.isSome_iff_exists.mp hl1
      have hs0 : (sz == 0) = false := by simp [hsz]
      have hres : ThinVec.emplace sz al mt v x =
          .ok { capacity := 1, len := 1, data := [some x] } := by
        have hlen0 : v.len = 0 := by omega
        simp [ThinVec.emplace, hfull, ThinVec.reserve, hc0, hlen0, hs0,
          ThinVec.reserve_inner, ThinVec.reserve_first, ThinVec.with_capacity, hL,
          ThinVec.emplace_unchecked, ThinVec.new]
        rfl
      refine ⟨_, hres, ?_, ?_, ?_, ?_⟩ <;> first | (simp; omega) | simp
    · have hnc : new_capacity v.capacity 1 =
          some (max (max (v.capacity + 1) (v.capacity * 2)) 4) := by
        rw [new_capacity, if_pos hov,
          Nat.mod_eq_of_lt (by unfold USIZE_SIZE; unfold USIZE_MAX at hov2; omega)]
      have hgrow : v.capacity - v.len < 1 := by omega
      have hres : ThinVec.emplace sz al mt v x =
          .ok (ThinVec.emplace_unchecked
            { capacity := max (max (v.capacity + 1) (v.capacity * 2)) 4, len := v.len,
              data := if mt then
                  v.data ++ List.replicate
                    (max (max (v.capacity + 1) (v.capacity * 2)) 4 - v.capacity) none
                else v.data.take v.len ++ List.replicate
                    (max (max (v.capacity + 1) (v.capacity * 2)) 4 - v.len) none } x) := by
        rw [ThinVec.emplace, if_pos (by simp [hfull]),
          reserve_grow_eq α sz al v mt 1 _ hsz hgrow hc0 hnc (hlay hfull)]
        rfl
      refine ⟨_, hres, rfl, ?_, ?_, ?_⟩
      · show v.len + 1 ≤ max (max (v.capacity + 1) (v.capacity * 2)) 4
        omega
      · show (ThinVec.emplace_unchecked _ x).data.length = _
        cases mt with
        | false => simp [ThinVec.emplace_unchecked, List.length_set, hdl, hfull]
        | true => simp [ThinVec.emplace_unchecked, List.length_set, hdl, hfull]
      · show max (max (v.capacity + 1) (v.capacity * 2)) 4 ≤ _
        rw [hfull]
        omega
  · have hlt : v.len < v.capacity := by omega
    have hres : ThinVec.emplace sz al mt v x = .ok (ThinVec.emplace_unchecked v x) := by
      rw [ThinVec.emplace, if_neg (by simp [hfull])]
    refine ⟨_, hres, rfl, ?_, ?_, ?_⟩
    · show v.len + 1 ≤ v.capacity
      omega
    · show (v.data.set v.len (some x)).length = v.capacity
      rw [List.length_set, hdl]
    · show v.capacity ≤ max v.capacity _
      exact Nat.le_max_left _ _

/-- Claim C7: starting from `ThinVec::new()` (capacity 0), after the `k`-th
of `n` sequential single-element `emplace` calls (for every `k ≤ n`, for an
element type of nonzero size `sz` and alignment `al` dividing the word
size, with `n` small enough that every grown block's byte layout fits
`isize::MAX` — the bound under which the source cannot panic in
`new_capacity`/`new_layout`) the vector satisfies `len = k` and
`capacity ≥ k` — the `len ≤ capacity` invariant holds after every push. -/
theorem thinVec_push_len_capacity (α : Type) (sz al : Nat) (mt : Bool) (vs : List α)
    (hsz : sz ≠ 0) (hal : al ≤ WORD_SIZE)
    (hbound : 2 * WORD_SIZE + sz * (2 * vs.length + 4) + (WORD_SIZE - 1) ≤ ISIZE_MAX) :
    ∀ k, k ≤ vs.length → ∃ v : ThinVec α,
      ThinVec.push_all α sz al mt (vs.take k) = .ok v ∧
      v.len = k ∧ k ≤ v.capacity ∧ v.data.length = v.capacity ∧
      v.capacity ≤ 2 * k + 4 := by
  have hsz1 : 1 ≤ sz := by omega
  have hszmul : 2 * vs.length + 4 ≤ sz * (2 * vs.length + 4) :=
    Nat.le_mul_of_pos_left _ (by omega)
  have hisize : USIZE_MAX = 2 * ISIZE_MAX + 1 := by
    unfold ISIZE_MAX USIZE_MAX
    omega
  intro k
  induction k with
  | zero =>
    intro _
    exact ⟨ThinVec.new α, rfl, rfl, Nat.le_refl 0, rfl, Nat.zero_le _⟩
  | succ k ih =>
    intro hk1
    obtain ⟨v, hv, hlen, hcap, hdata, hbnd⟩ := ih (by omega)
    have hklt : k < vs.length := by omega
    have htake : vs.take (k + 1) = vs.take k ++ [vs[k]] := by
      rw [List.take_succ, List.getElem?_eq_getElem hklt]
      rfl
    have hsplit : ThinVec.push_all α sz al mt (vs.take (k + 1)) =
        ThinVec.push_all α sz al mt (vs.take k) >>= fun v0 =>
          ThinVec.emplace sz al mt v0 vs[k] := by
      rw [ThinVec.push_all, htake, List.foldlM_append]
      simp [ThinVec.push_all, List.foldlM]
    obtain ⟨v1, hv1, hl1, hlc1, hdl1, hb1⟩ :=
      emplace_ok α sz al mt v vs[k] hsz (by omega) hdata
        (by omega) (by omega)
        (fun hfull => by
          have hck : v.capacity = k := by omega
          rw [hck]
          refine alloc_ty_layout_isSome_of_le sz al _ hal ?_
          have hm : sz * (max (max (k + 1) (k * 2)) 4) ≤ sz * (2 * vs.length + 4) :=
            Nat.mul_le_mul_left sz (by omega)
          omega)
    refine ⟨v1, ?_, by omega, by omega, hdl1, by omega⟩
    rw [hsplit, hv]
    simpa using hv1

/-- Claim C8: dropping a `ThinVec` with capacity 0 performs no element
teardown and no deallocation (the static sentinel is never freed); dropping
one with capacity > 0 deallocates the heap block exactly once, tearing down
exactly the elements `[0, len)` first when the element type needs dropping
(and none otherwise). -/
theorem thinVec_drop_spec (α : Type) (v : ThinVec α) (nd : Bool) :
    (v.capacity = 0 → ThinVec.drop_model nd v = ([], 0)) ∧
    (0 < v.capacity →
      (ThinVec.drop_model nd v).2 = 1 ∧
      (nd = true → (ThinVec.drop_model nd v).1 = v.data.take v.len) ∧
      (nd = false → (ThinVec.drop_model nd v).1 = [])) := by
  constructor
  · intro h0
    simp [ThinVec.drop_model, h0]
  · intro hpos
    have h0 : (v.capacity == 0) = false := by
      simp
      omega
    cases nd <;> simp [ThinVec.drop_model, h0]

/-- Claim C10: `pop` returns `none` exactly on the empty vector, leaving it
unchanged; on a vector of length `n > 0` it returns the (initialized) slot
at index `n - 1` as an owning handle and decrements the stored length to
`n - 1`, leaving the storage (hence the elements `[0, n - 1)`) and the
capacity untouched. -/
theorem thinVec_pop_spec (α : Type) (v : ThinVec α)
    (hinit : ∀ i, i < v.len → (v.data.getD i none).isSome = true) :
    (v.len = 0 → ThinVec.pop v = (none, v)) ∧
    (0 < v.len →
      ThinVec.pop v =
        (some (v.data.getD (v.len - 1) none), { v with len := v.len - 1 }) ∧
      (v.data.getD (v.len - 1) none).isSome = true ∧
      (ThinVec.pop v).2.data = v.data ∧
      (ThinVec.pop v).2.capacity = v.capacity) := by
  constructor
  · intro h0
    simp [ThinVec.pop, ThinVec.is_empty, h0]
  · intro hpos
    have he : v.is_empty = false := by
      simp [ThinVec.is_empty]
      omega
    have hp : ThinVec.pop v =
        (some (v.data.getD (v.len - 1) none), { v with len := v.len - 1 }) := by
      simp [ThinVec.pop, he, ThinVec.pop_unchecked]
    exact ⟨hp, hinit _ (by omega), by rw [hp], by rw [hp]⟩

/-- Witness for C1 at `n = 4`, `k = 2`, values `[5, 7]`, with a trailing
construction failure. -/
theorem sliceWriter_abandon_teardown_witness :
    (([5, 7] : List Nat).length = 2 ∧ 2 + (if true then 1 else 0) ≤ 4) ∧
    (((SliceWriter.new Nat 4).run_writes
        (([5, 7] : List Nat).map WriteStep.ok ++
          (if true then [WriteStep.fail] else []))).drop_teardown =
       List.range 2 ∧
     ((SliceWriter.new Nat 4).run_writes
        (([5, 7] : List Nat).map WriteStep.ok ++
          (if true then [WriteStep.fail] else []))).drop_teardown.Nodup ∧
     (∀ i ∈ ((SliceWriter.new Nat 4).run_writes
        (([5, 7] : List Nat).map WriteStep.ok ++
          (if true then [WriteStep.fail] else []))).drop_teardown,
       i < 2 ∧
       ((SliceWriter.new Nat 4).run_writes
        (([5, 7] : List Nat).map WriteStep.ok ++
          (if true then [WriteStep.fail] else []))).mem.getD i none =
         ([5, 7] : List Nat)[i]?) ∧
     (∀ i, 2 ≤ i → i ∉ ((SliceWriter.new Nat 4).run_writes
        (([5, 7] : List Nat).map WriteStep.ok ++
          (if true then [WriteStep.fail] else []))).drop_teardown)) :=
  ⟨⟨by decide, by decide⟩,
    sliceWriter_abandon_teardown Nat 4 2 [5, 7] true (by decide) (by decide)⟩

/-- Witness for C2 at destination length 3 and source length 5 (the spec's
own scenario, expecting `LengthMismatch(3, 5)`). -/
theorem slice_ctor_length_mismatch_witness :
    (([0, 1, 2, 3, 4] : List Nat).length = 5 ∧ (3 : Nat) ≠ 5) ∧
    (Slice.move_ctor Nat 3 [0, 1, 2, 3, 4] false =
        .error (.lengthMismatch 3 5) ∧
     Slice.take_ctor Nat 3 [0, 1, 2, 3, 4] false =
        .error (.lengthMismatch 3 5) ∧
     Slice.clone_ctor Nat 3 [0, 1, 2, 3, 4] false =
        .error (.lengthMismatch 3 5)) :=
  ⟨⟨by decide, by decide⟩,
    slice_ctor_length_mismatch Nat 3 5 [0, 1, 2, 3, 4] false (by decide) (by decide)⟩

/-- Witness for C3 at `n = 2` with written values `[4, 9]`. -/
theorem sliceWriter_round_trip_witness :
    (([4, 9] : List Nat).length = 2) ∧
    ((∃ w : SliceWriter Nat,
        (SliceWriter.new Nat 2).write_all [4, 9] = .ok w ∧
        w.remaining_len = 0 ∧
        w.finish = .ok (([4, 9] : List Nat).map some) ∧
        w.try_finish = some (.ok (([4, 9] : List Nat).map some)) ∧
        w.get_remaining.length = 2) ∧
     (∀ u : SliceWriter Nat, (u.try_finish).isSome ↔ u.remaining_len = 0)) :=
  ⟨by decide, sliceWriter_round_trip Nat 2 [4, 9] (by decide)⟩

/-- Witness for C9 on a fresh writer over one slot with a failing element
write. -/
theorem sliceWriter_poison_permanent_witness :
    ((SliceWriter.new Nat 1).Inv ∧ (SliceWriter.new Nat 1).is_complete = false) ∧
    (∃ w₁ : SliceWriter Nat,
      (SliceWriter.new Nat 1).try_init (Except.error ()) = .ok (w₁, some ()) ∧
      w₁.remaining_len = (SliceWriter.new Nat 1).remaining_len - 1 ∧
      w₁.initCount = (SliceWriter.new Nat 1).initCount ∧
      w₁.is_poisoned = true ∧
      ∀ steps : List (WriteStep Nat),
        (w₁.run_writes steps).is_poisoned = true ∧
        (∀ xs, (w₁.run_writes steps).finish ≠ .ok xs) ∧
        ((w₁.run_writes steps).is_complete = true →
          (w₁.run_writes steps).finish = .error .poisonedWriter)) :=
  ⟨⟨⟨by decide, by decide⟩, by decide⟩,
    sliceWriter_poison_permanent Nat Unit (SliceWriter.new Nat 1) ()
      ⟨by decide, by decide⟩ (by decide)⟩

/-- Witness for C5 at `n = 2` with a one-item source (all items
constructing fine): `NotEnoughItems`, with the one constructed element torn
down. -/
theorem iter_init_spec_witness :
    (([9] : List Nat).length < 2) ∧
    (Slice.iter_init Nat Unit 2 (([9] : List Nat).map Except.ok) =
        .ok (.error .notEnoughItems) ∧
     (Slice.iter_init_run Nat Unit 2
        (([9] : List Nat).map Except.ok)).1.drop_teardown =
        List.range ([9] : List Nat).length ∧
     2 - (Slice.iter_init_run Nat Unit 2
        (([9] : List Nat).map Except.ok)).1.iterLen =
        ([9] : List Nat).length) :=
  ⟨by decide, (iter_init_spec Nat Unit 2).1 [9] (by decide)⟩

/-- Witness for C4 at the spec's own scenario: a 10-element `u8` sequence
via the zero request yields `[0; 10]` with the constructor skipped. -/
theorem zero_fill_shortcut_equiv_witness :
    ((10 : Nat) ≤ ISIZE_MAX ∧ SliceLayoutProvider.is_zeroed_copy_u8 0 = true) ∧
    (try_boxed_u8_copy 10 0 = .ok (List.replicate 10 (some 0), false) ∧
     Slice.try_init_copy_u8 10 0 = .ok (List.replicate 10 (some 0)) ∧
     (List.replicate 10 (some 0) : List (Option Nat)) =
        List.replicate 10 (some 0)) :=
  ⟨⟨by decide, by decide⟩, zero_fill_shortcut_equiv 10 0 (by decide) (by decide)⟩

/-- Witness for the amended C6 on a full vector of capacity 4: `reserve(1)`
grows it to `max(4 + 1, 4 * 2, 4) = 8`. -/
theorem reserve_growth_formula_witness :
    ((4 : Nat) ≠ 0 ∧ (4 : Nat) - 4 < 1 ∧ (4 : Nat) + 1 ≤ USIZE_MAX ∧
      (4 : Nat) * 2 ≤ USIZE_MAX) ∧
    ((0 < (4 : Nat) →
      (alloc_ty_layout 4 4 (max (max (4 + 1) (4 * 2)) 4)).isSome = true →
      ∃ v1 : ThinVec Nat,
        ThinVec.reserve 4 4 true
          (⟨4, 4, [some 1, some 2, some 3, some 4]⟩ : ThinVec Nat) 1 = .ok v1 ∧
        v1.capacity = max (max (4 + 1) (4 * 2)) 4 ∧ v1.len = 4) ∧
     ((4 : Nat) = 0 →
      (alloc_ty_layout 4 4 1).isSome = true →
        ThinVec.reserve 4 4 true
          (⟨4, 4, [some 1, some 2, some 3, some 4]⟩ : ThinVec Nat) 1 =
          .ok { capacity := 1, len := 0, data := List.replicate 1 none })) :=
  ⟨⟨by decide, by decide, by decide, by decide⟩,
    reserve_growth_formula Nat 4 4 ⟨4, 4, [some 1, some 2, some 3, some 4]⟩ true 1
      (by decide) (by decide) (by decide) (by decide)⟩

/-- Witness for C7 with five pushes (element size 4, alignment 4) from a
fresh vector. -/
theorem thinVec_push_len_capacity_witness :
    ((4 : Nat) ≠ 0 ∧ (4 : Nat) ≤ WORD_SIZE ∧
      2 * WORD_SIZE + 4 * (2 * ([1, 2, 3, 4, 5] : List Nat).length + 4) +
        (WORD_SIZE - 1) ≤ ISIZE_MAX) ∧
    (∀ k, k ≤ ([1, 2, 3, 4, 5] : List Nat).length → ∃ v : ThinVec Nat,
      ThinVec.push_all Nat 4 4 true (([1, 2, 3, 4, 5] : List Nat).take k) = .ok v ∧
      v.len = k ∧ k ≤ v.capacity ∧ v.data.length = v.capacity ∧
      v.capacity ≤ 2 * k + 4) :=
  ⟨⟨by decide, by decide, by decide⟩,
    thinVec_push_len_capacity Nat 4 4 true [1, 2, 3, 4, 5] (by decide) (by decide)
      (by decide)⟩

/-- Witness for C8 on a one-element vector of capacity 2 with droppable
elements. -/
theorem thinVec_drop_spec_witness :
    (0 : Nat) < 2 ∧
    ((ThinVec.drop_model true (⟨2, 1, [some 5, none]⟩ : ThinVec Nat)).2 = 1 ∧
     (true = true →
        (ThinVec.drop_model true (⟨2, 1, [some 5, none]⟩ : ThinVec Nat)).1 =
          (⟨2, 1, [some 5, none]⟩ : ThinVec Nat).data.take 1) ∧
     (true = false →
        (ThinVec.drop_model true (⟨2, 1, [some 5, none]⟩ : ThinVec Nat)).1 = [])) :=
  ⟨by decide,
    (thinVec_drop_spec Nat ⟨2, 1, [some 5, none]⟩ true).2 (by decide)⟩

/-- Witness for C10 on a two-element vector of capacity 4. -/
theorem thinVec_pop_spec_witness :
    (∀ i, i < (⟨4, 2, [some 1, some 2, none, none]⟩ : ThinVec Nat).len →
       (((⟨4, 2, [some 1, some 2, none, none]⟩ : ThinVec Nat).data.getD i
          none).isSome = true)) ∧
    (((⟨4, 2, [some 1, some 2, none, none]⟩ : ThinVec Nat).len = 0 →
        ThinVec.pop (⟨4, 2, [some 1, some 2, none, none]⟩ : ThinVec Nat) =
          (none, ⟨4, 2, [some 1, some 2, none, none]⟩)) ∧
     (0 < (⟨4, 2, [some 1, some 2, none, none]⟩ : ThinVec Nat).len →
        ThinVec.pop (⟨4, 2, [some 1, some 2, none, none]⟩ : ThinVec Nat) =
          (some ((⟨4, 2, [some 1, some 2, none, none]⟩ : ThinVec Nat).data.getD
              ((⟨4, 2, [some 1, some 2, none, none]⟩ : ThinVec Nat).len - 1) none),
            { (⟨4, 2, [some 1, some 2, none, none]⟩ : ThinVec Nat) with
                len := (⟨4, 2, [some 1, some 2, none, none]⟩ : ThinVec Nat).len - 1 }) ∧
        (((⟨4, 2, [some 1, some 2, none, none]⟩ : ThinVec Nat).data.getD
            ((⟨4, 2, [some 1, some 2, none, none]⟩ : ThinVec Nat).len - 1)
            none).isSome = true) ∧
        (ThinVec.pop (⟨4, 2, [some 1, some 2, none, none]⟩ : ThinVec Nat)).2.data =
          (⟨4, 2, [some 1, some 2, none, none]⟩ : ThinVec Nat).data ∧
        (ThinVec.pop (⟨4, 2, [some 1, some 2, none, none]⟩ : ThinVec Nat)).2.capacity =
          (⟨4, 2, [some 1, some 2, none, none]⟩ : ThinVec Nat).capacity)) :=
  ⟨by decide,
    thinVec_pop_spec Nat ⟨4, 2, [some 1, some 2, none, none]⟩ (by decide)⟩

end InitV1
